import Mathlib

/-!
Verification of the `ImageUploader` widget (src/imageUploader.js).

The controller core is embedded shallowly:

* `RawFile` models the raw file handle supplied by the host environment
  (the fields the logic reads: `name`, `size`, `type`; the last is spelled
  `ftype` since `type` is reserved in Lean).
* `FileObj` models a tracked entry (`{ file, id, uploaded, progress }`);
  the `preview` field of the source is DOM-only state and is omitted.
* `Config` models the immutable options object; the presentation-only
  options (`multiple`, label strings, `theme`) are omitted, and each
  optional lifecycle hook is kept as a `Bool` recording whether it was
  configured.  Hook invocations are made observable as an `Event` trace
  returned next to the new state.
* The externally supplied upload function (`options.onUpload`) is a
  parameter `beh : RawFile → List Int × Option String`: the list of
  values it passes to the progress callback, in order, followed by its
  outcome (`none` = resolve, `some msg` = reject with `error.message = msg`).
  Its invocation is recorded in the trace as `Event.uploadCall`.
* The id `Date.now() + Math.random()` is abstracted to a fresh counter
  `nextId` carried in the state.

DOM reads and writes (`createPreview`, `updateUI`, class toggling,
progress-bar styling) have no effect on the controller state or the hook
trace and are omitted.
-/

namespace ImageUploader

/-- A raw file handle: the fields of the host `File` object that the
controller logic reads (`file.name`, `file.size`, `file.type`). -/
structure RawFile where
  name : String
  size : Nat
  ftype : String
deriving DecidableEq, Repr

/-- A tracked entry: wraps the raw handle, the generated identifier, the
uploaded flag and the progress value last reported for it.  The source's
`preview` field is DOM-only and omitted. -/
structure FileObj where
  file : RawFile
  id : Nat
  uploaded : Bool
  progress : Int
deriving DecidableEq, Repr

/-- The configuration: limits plus, for each optional lifecycle hook,
whether it was supplied.  Presentation-only options are omitted. -/
structure Config where
  maxFiles : Nat
  maxFileSize : Nat
  acceptedTypes : List String
  onFilesAdded : Bool
  onFileRemoved : Bool
  onUpload : Bool
  onUploadProgress : Bool
  onUploadComplete : Bool
  onError : Bool
deriving DecidableEq, Repr

/-- One observable external effect: an invocation of a lifecycle hook, of
the supplied upload function, or the `console.error` fallback of
`showError`. -/
inductive Event where
  | filesAdded (batch : List RawFile)
  | fileRemoved (f : RawFile)
  | uploadCall (f : RawFile)
  | uploadProgress (f : RawFile) (percent : Int)
  | uploadComplete (batch : List RawFile)
  | errorHook (msg : String)
  | consoleError (msg : String)
deriving DecidableEq, Repr

def Event.isFilesAdded : Event → Bool
  | .filesAdded _ => true
  | _ => false

def Event.isUploadCall : Event → Bool
  | .uploadCall _ => true
  | _ => false

def Event.isUploadComplete : Event → Bool
  | .uploadComplete _ => true
  | _ => false

/-- The message of the once-per-batch capacity error of `addFiles`
(line 140 of the source). -/
def capacityMsg (maxFiles : Nat) : String :=
  "Maximum " ++ toString maxFiles ++ " files allowed"

/-- Whether an event is the report (through the error hook or the
console fallback) of the capacity error for the given maximum. -/
def Event.isCapacityError (maxFiles : Nat) : Event → Bool
  | .errorHook m => m == capacityMsg maxFiles
  | .consoleError m => m == capacityMsg maxFiles
  | _ => false

/-- The controller state: the tracked list, the `uploading` flag, and the
counter abstracting id generation. -/
structure UploaderState where
  files : List FileObj
  uploading : Bool
  nextId : Nat
deriving DecidableEq, Repr

/-- The widget right after construction: no files, idle. -/
def emptyState : UploaderState :=
  { files := [], uploading := false, nextId := 0 }

/-- `showError(message)`: forwards to the error hook when configured,
else logs to the console. -/
def showError (cfg : Config) (msg : String) : List Event :=
  if cfg.onError then [Event.errorHook msg] else [Event.consoleError msg]

/-- `validateFile(file)`: type whitelist check first, then the size
check; returns whether the file is kept, next to the error events it
reported.  The source formats the size limit with `toFixed(1)`; the
message here carries the integer number of megabytes instead, which
leaves every message pairwise distinguishable exactly as in the source. -/
def validateFile (cfg : Config) (f : RawFile) : Bool × List Event :=
  if !(cfg.acceptedTypes.contains f.ftype) then
    (false, showError cfg (f.name ++ ": Invalid file type"))
  else if cfg.maxFileSize < f.size then
    (false, showError cfg
      (f.name ++ ": File too large (max " ++
        toString (cfg.maxFileSize / (1024 * 1024)) ++ "MB)"))
  else
    (true, [])

/-- `Array.prototype.splice(start)` on a JS array, viewed as the list of
elements it keeps: with `0 ≤ start` the first `start` elements remain,
with a negative `start` the first `length + start` (clamped at `0`). -/
def spliceTruncate {α : Type} (l : List α) (start : Int) : List α :=
  if 0 ≤ start then l.take start.toNat
  else l.take ((l.length : Int) + start).toNat

/-- Wrapping of the accepted raw handles into tracked entries, with
fresh ids from the counter (`uploaded: false`, `progress: 0`). -/
def mkFileObjs : List RawFile → Nat → List FileObj
  | [], _ => []
  | f :: rest, n =>
    { file := f, id := n, uploaded := false, progress := 0 } :: mkFileObjs rest (n + 1)

/-- The raw handles a batch contributes after `addFiles`'s validation
filter and its capacity `splice`: the state of the source's `validFiles`
array after line 141. -/
def acceptedOfBatch (cfg : Config) (s : UploaderState) (newFiles : List RawFile) :
    List RawFile :=
  let validFiles := newFiles.filter (fun f => (validateFile cfg f).1)
  if cfg.maxFiles < s.files.length + validFiles.length then
    spliceTruncate validFiles ((cfg.maxFiles : Int) - (s.files.length : Int))
  else validFiles

/-- `addFiles(newFiles)`: validate each file (reporting per-file
errors), report one capacity error and truncate the valid batch when the
cap would be exceeded, append the kept files as tracked entries, and
fire `onFilesAdded` with the kept raw handles when configured and at
least one file was kept. -/
def addFiles (cfg : Config) (s : UploaderState) (newFiles : List RawFile) :
    UploaderState × List Event :=
  let valEvents := (newFiles.map (fun f => (validateFile cfg f).2)).flatten
  let validFiles := newFiles.filter (fun f => (validateFile cfg f).1)
  let overflow := cfg.maxFiles < s.files.length + validFiles.length
  let kept := acceptedOfBatch cfg s newFiles
  let capEvents :=
    if overflow then
      showError cfg ("Maximum " ++ toString cfg.maxFiles ++ " files allowed")
    else []
  let addedEvents :=
    if cfg.onFilesAdded ∧ 0 < kept.length then [Event.filesAdded kept] else []
  ({ files := s.files ++ mkFileObjs kept s.nextId,
     uploading := s.uploading,
     nextId := s.nextId + kept.length },
   valEvents ++ capEvents ++ addedEvents)

/-- `findIndex` on the id followed by `splice(index, 1)`: removes the
first entry with the given id, returning it next to the remaining list. -/
def removeFirstById : List FileObj → Nat → Option (FileObj × List FileObj)
  | [], _ => none
  | fo :: rest, fid =>
    if fo.id = fid then some (fo, rest)
    else
      match removeFirstById rest fid with
      | none => none
      | some (r, rest') => some (r, fo :: rest')

/-- `removeFile(fileId)`: no-op when the id is absent; otherwise drop
the entry and fire `onFileRemoved` with its raw handle when configured. -/
def removeFile (cfg : Config) (s : UploaderState) (fileId : Nat) :
    UploaderState × List Event :=
  match removeFirstById s.files fileId with
  | none => (s, [])
  | some (fo, rest) =>
    ({ files := rest, uploading := s.uploading, nextId := s.nextId },
     if cfg.onFileRemoved then [Event.fileRemoved fo.file] else [])

/-- `clear()`: empties the tracked list (the preview-area reset and
`updateUI` are DOM-only); fires no hooks. -/
def clear (s : UploaderState) : UploaderState × List Event :=
  ({ files := [], uploading := s.uploading, nextId := s.nextId }, [])

/-- `getFiles()`. -/
def getFiles (s : UploaderState) : List RawFile :=
  s.files.map (fun fo => fo.file)

/-- `getUploadedFiles()`. -/
def getUploadedFiles (s : UploaderState) : List RawFile :=
  (s.files.filter (fun fo => fo.uploaded)).map (fun fo => fo.file)

/-- The behaviour of the externally supplied upload function on one
call: the values it passes to the progress callback, in order, then its
outcome (`none` = resolve, `some msg` = reject with message `msg`). -/
abbrev UploadBehavior := RawFile → List Int × Option String

/-- The `progressCallback` closure built in `uploadFile`: stores the
reported value into the entry and forwards it to `onUploadProgress`
when configured (the progress-bar width update is DOM-only). -/
def progressCallback (cfg : Config) (fo : FileObj) (percent : Int) :
    FileObj × List Event :=
  ({ fo with progress := percent },
   if cfg.onUploadProgress then [Event.uploadProgress fo.file percent] else [])

/-- The sequence of progress-callback invocations made by one call of
the upload function, applied in order. -/
def applyProgressCalls (cfg : Config) (fo : FileObj) : List Int → FileObj × List Event
  | [] => (fo, [])
  | p :: rest =>
    let r := progressCallback cfg fo p
    let r2 := applyProgressCalls cfg r.1 rest
    (r2.1, r.2 ++ r2.2)

/-- `uploadFile(fileObj)`: invoke the upload function with the raw
handle and the progress callback; on resolve mark the entry uploaded, on
reject leave it and propagate the error (the `uploaded`/`error` CSS
classes are DOM-only). -/
def uploadFile (cfg : Config) (beh : UploadBehavior) (fo : FileObj) :
    FileObj × List Event × Option String :=
  let calls := (beh fo.file).1
  let outcome := (beh fo.file).2
  let stepped := applyProgressCalls cfg fo calls
  match outcome with
  | none =>
    ({ stepped.1 with uploaded := true },
     Event.uploadCall fo.file :: stepped.2, none)
  | some msg =>
    (stepped.1, Event.uploadCall fo.file :: stepped.2, some msg)

/-- The `for` loop of `startUpload`: entries already uploaded are
skipped; a rejection halts the loop at once, leaving later entries
untouched. -/
def runUploadLoop (cfg : Config) (beh : UploadBehavior) :
    List FileObj → List FileObj × List Event × Option String
  | [] => ([], [], none)
  | fo :: rest =>
    if fo.uploaded then
      let r := runUploadLoop cfg beh rest
      (fo :: r.1, r.2.1, r.2.2)
    else
      let u := uploadFile cfg beh fo
      match u.2.2 with
      | some msg => (u.1 :: rest, u.2.1, some msg)
      | none =>
        let r := runUploadLoop cfg beh rest
        (u.1 :: r.1, u.2.1 ++ r.2.1, r.2.2)

/-- `startUpload()`: silent no-op when no upload function is configured
or already uploading; otherwise run the loop, then fire
`onUploadComplete` with every tracked raw handle on full success, or
report `Upload failed: <message>` on a rejection; either way the widget
is idle again afterwards. -/
def startUpload (cfg : Config) (beh : UploadBehavior) (s : UploaderState) :
    UploaderState × List Event :=
  if cfg.onUpload = false ∨ s.uploading = true then (s, [])
  else
    let r := runUploadLoop cfg beh s.files
    match r.2.2 with
    | none =>
      ({ files := r.1, uploading := false, nextId := s.nextId },
       r.2.1 ++
         (if cfg.onUploadComplete then
            [Event.uploadComplete (r.1.map (fun fo => fo.file))]
          else []))
    | some msg =>
      ({ files := r.1, uploading := false, nextId := s.nextId },
       r.2.1 ++ showError cfg ("Upload failed: " ++ msg))

/-- A sequence of intake operations. -/
def applyBatches (cfg : Config) (s : UploaderState) : List (List RawFile) → UploaderState
  | [] => s
  | b :: rest => applyBatches cfg (addFiles cfg s b).1 rest

/-- What one loop iteration leaves of an entry when its upload (if any)
succeeds: skipped entries are untouched, pending ones are run. -/
def succUpd (cfg : Config) (beh : UploadBehavior) (fo : FileObj) : FileObj :=
  if fo.uploaded then fo else (uploadFile cfg beh fo).1

/-- The events a run of the loop emits over a stretch of entries whose
uploads all succeed. -/
def succEvs (cfg : Config) (beh : UploadBehavior) : List FileObj → List Event
  | [] => []
  | fo :: rest =>
    (if fo.uploaded then ([] : List Event) else (uploadFile cfg beh fo).2.1) ++
      succEvs cfg beh rest

/-! ### Concrete fixtures used by the closed witness statements -/

/-- A configuration with every hook supplied. -/
def cfgW : Config :=
  { maxFiles := 10, maxFileSize := 1000,
    acceptedTypes := ["image/png", "image/jpeg"],
    onFilesAdded := true, onFileRemoved := true, onUpload := true,
    onUploadProgress := true, onUploadComplete := true, onError := true }

def fileA : RawFile := { name := "a.png", size := 10, ftype := "image/png" }

def fileB : RawFile := { name := "b.png", size := 20, ftype := "image/png" }

def fileC : RawFile := { name := "c.png", size := 30, ftype := "image/png" }

/-- A file violating both the type whitelist and the size bound of `cfgW`. -/
def badFile : RawFile := { name := "bad.txt", size := 5000, ftype := "text/plain" }

/-- A configuration like `cfgW` but with room for only two files, so a
batch can overflow the capacity. -/
def cfgSmall : Config :=
  { maxFiles := 2, maxFileSize := 1000,
    acceptedTypes := ["image/png", "image/jpeg"],
    onFilesAdded := true, onFileRemoved := true, onUpload := true,
    onUploadProgress := true, onUploadComplete := true, onError := true }

/-- A state tracking `fileA` alone. -/
def stateW : UploaderState :=
  { files := [{ file := fileA, id := 0, uploaded := false, progress := 0 }],
    uploading := false, nextId := 1 }

def objA : FileObj := { file := fileA, id := 0, uploaded := false, progress := 0 }

def objB : FileObj := { file := fileB, id := 1, uploaded := false, progress := 0 }

def objC : FileObj := { file := fileC, id := 2, uploaded := false, progress := 0 }

/-- A state tracking `fileA`, `fileB`, `fileC`, all pending. -/
def stateABC : UploaderState :=
  { files := [objA, objB, objC], uploading := false, nextId := 3 }

/-- An upload function rejecting on `fileB` and resolving elsewhere. -/
def behFail : UploadBehavior :=
  fun f => if f = fileB then ([], some "boom") else ([], none)

/-- An upload function reporting progress 50 and resolving. -/
def behGood : UploadBehavior := fun _ => ([50], none)

/-- An upload function reporting progress 150 — above 100 — and
resolving. -/
def behOver : UploadBehavior := fun _ => ([150], none)

/-! ### Basic lemmas -/

theorem mkFileObjs_length (l : List RawFile) (n : Nat) :
    (mkFileObjs l n).length = l.length := by
  induction l generalizing n with
  | nil => rfl
  | cons f rest ih => simp [mkFileObjs, ih]

theorem mkFileObjs_map_file (l : List RawFile) (n : Nat) :
    (mkFileObjs l n).map (fun fo => fo.file) = l := by
  induction l generalizing n with
  | nil => rfl
  | cons f rest ih => simp [mkFileObjs, ih]

theorem mem_mkFileObjs {l : List RawFile} {n : Nat} {fo : FileObj}
    (h : fo ∈ mkFileObjs l n) : fo.file ∈ l ∧ fo.uploaded = false ∧ fo.progress = 0 := by
  induction l generalizing n with
  | nil => simp [mkFileObjs] at h
  | cons f rest ih =>
    simp only [mkFileObjs, List.mem_cons] at h
    rcases h with h | h
    · subst h; simp
    · rcases ih h with ⟨h1, h2, h3⟩
      exact ⟨List.mem_cons_of_mem _ h1, h2, h3⟩

/-- Under the tracked-count invariant, the raw handles a batch
contributes are exactly the valid files truncated to the remaining
capacity. -/
theorem acceptedOfBatch_eq_take (cfg : Config) (s : UploaderState) (b : List RawFile)
    (h : s.files.length ≤ cfg.maxFiles) :
    acceptedOfBatch cfg s b =
      (b.filter (fun f => (validateFile cfg f).1)).take
        (cfg.maxFiles - s.files.length) := by
  unfold acceptedOfBatch
  by_cases hov :
      cfg.maxFiles < s.files.length + (b.filter (fun f => (validateFile cfg f).1)).length
  · have hnn : (0 : Int) ≤ (cfg.maxFiles : Int) - (s.files.length : Int) := by omega
    have htn : ((cfg.maxFiles : Int) - (s.files.length : Int)).toNat =
        cfg.maxFiles - s.files.length := by omega
    simp only [hov, if_pos, spliceTruncate, hnn, htn]
  · have hle : (b.filter (fun f => (validateFile cfg f).1)).length ≤
        cfg.maxFiles - s.files.length := by omega
    simp only [hov, if_neg, not_false_iff, List.take_of_length_le hle]

theorem addFiles_files_length (cfg : Config) (s : UploaderState) (b : List RawFile)
    (h : s.files.length ≤ cfg.maxFiles) :
    (addFiles cfg s b).1.files.length ≤ cfg.maxFiles := by
  unfold addFiles
  simp only [List.length_append, mkFileObjs_length, acceptedOfBatch_eq_take cfg s b h,
    List.length_take]
  omega

/-- C2: The tracked count never exceeds the configured maximum after any
sequence of intake operations starting from an empty widget. -/
theorem trackedCount_le_maxFiles (cfg : Config) (batches : List (List RawFile)) :
    (applyBatches cfg emptyState batches).files.length ≤ cfg.maxFiles := by
  have main : ∀ (bs : List (List RawFile)) (s : UploaderState),
      s.files.length ≤ cfg.maxFiles →
      (applyBatches cfg s bs).files.length ≤ cfg.maxFiles := by
    intro bs
    induction bs with
    | nil => intro s hs; exact hs
    | cons b rest ih =>
      intro s hs
      exact ih _ (addFiles_files_length cfg s b hs)
  exact main batches emptyState (by simp [emptyState])

/-- C7: `clear()` always leaves the tracked list empty, whatever the
state (uploading included), and fires no notifications. -/
theorem clear_empties_and_silent (s : UploaderState) :
    (clear s).1.files = [] ∧ (clear s).2 = [] := by
  exact ⟨rfl, rfl⟩

/-- C8: `startUpload` with no upload function configured, or while
already uploading, is a silent no-op: state unchanged, no hook invoked. -/
theorem startUpload_noop (cfg : Config) (beh : UploadBehavior) (s : UploaderState)
    (h : cfg.onUpload = false ∨ s.uploading = true) :
    startUpload cfg beh s = (s, []) := by
  unfold startUpload
  simp only [h, if_pos]

/-- Witness for C8 at a concrete state that is mid-upload. -/
theorem startUpload_noop_witness :
    startUpload
      { maxFiles := 10, maxFileSize := 1000, acceptedTypes := ["image/png"],
        onFilesAdded := true, onFileRemoved := true, onUpload := true,
        onUploadProgress := true, onUploadComplete := true, onError := true }
      (fun _ => ([], none))
      { files := [], uploading := true, nextId := 0 } =
      ({ files := [], uploading := true, nextId := 0 }, []) :=
  startUpload_noop _ _ _ (Or.inr rfl)

/-! ### Validation lemmas -/

theorem showError_ne_nil (cfg : Config) (m : String) : showError cfg m ≠ [] := by
  unfold showError
  split <;> simp

theorem mem_showError {cfg : Config} {m : String} {e : Event}
    (he : e ∈ showError cfg m) :
    e = Event.errorHook m ∨ e = Event.consoleError m := by
  unfold showError at he
  by_cases h : cfg.onError
  · simp [h] at he; exact Or.inl he
  · simp [h] at he; exact Or.inr he

theorem showError_event_flags {cfg : Config} {m : String} {e : Event}
    (he : e ∈ showError cfg m) :
    e.isFilesAdded = false ∧ e.isUploadCall = false ∧ e.isUploadComplete = false := by
  rcases mem_showError he with rfl | rfl <;> exact ⟨rfl, rfl, rfl⟩

/-- `validateFile` reports either nothing (valid file) or exactly one
`showError`. -/
theorem validateFile_events_shape (cfg : Config) (f : RawFile) :
    (validateFile cfg f).2 = [] ∨ ∃ m, (validateFile cfg f).2 = showError cfg m := by
  unfold validateFile
  split
  · exact Or.inr ⟨_, rfl⟩
  · split
    · exact Or.inr ⟨_, rfl⟩
    · exact Or.inl rfl

/-- A file failing the whitelist or the size bound is rejected by
`validateFile`, with an error reported. -/
theorem validateFile_of_invalid {cfg : Config} {f : RawFile}
    (hbad : f.ftype ∉ cfg.acceptedTypes ∨ cfg.maxFileSize < f.size) :
    (validateFile cfg f).1 = false ∧
    ∃ m, (validateFile cfg f).2 = showError cfg m := by
  by_cases hc : f.ftype ∈ cfg.acceptedTypes
  · have hsz : cfg.maxFileSize < f.size := by
      rcases hbad with hb | hb
      · exact absurd hc hb
      · exact hb
    refine ⟨by simp [validateFile, hc, hsz],
      ⟨f.name ++ ": File too large (max " ++
          toString (cfg.maxFileSize / (1024 * 1024)) ++ "MB)",
        by simp [validateFile, hc, hsz]⟩⟩
  · refine ⟨by simp [validateFile, hc],
      ⟨f.name ++ ": Invalid file type", by simp [validateFile, hc]⟩⟩

theorem spliceTruncate_subset {α : Type} (l : List α) (k : Int) :
    spliceTruncate l k ⊆ l := by
  unfold spliceTruncate
  split <;> exact List.take_subset _ _

theorem acceptedOfBatch_subset_filter (cfg : Config) (s : UploaderState)
    (b : List RawFile) :
    acceptedOfBatch cfg s b ⊆ b.filter (fun f => (validateFile cfg f).1) := by
  intro a ha
  simp only [acceptedOfBatch] at ha
  split at ha
  · exact spliceTruncate_subset _ _ ha
  · exact ha

/-- C4: A file whose declared type is outside the accepted set, or whose
declared size exceeds the configured maximum, is never added to the
tracked list by `addFiles`, and `validateFile` reports an error for it
that appears in the batch's event trace. -/
theorem invalidFile_never_added (cfg : Config) (s : UploaderState)
    (batch : List RawFile) (f : RawFile) (hf : f ∈ batch)
    (hbad : f.ftype ∉ cfg.acceptedTypes ∨ cfg.maxFileSize < f.size) :
    (∀ fo ∈ (addFiles cfg s batch).1.files, fo.file = f → fo ∈ s.files) ∧
    (validateFile cfg f).2 ≠ [] ∧
    (∀ e ∈ (validateFile cfg f).2, e ∈ (addFiles cfg s batch).2) := by
  obtain ⟨hval, m, hev⟩ := validateFile_of_invalid hbad
  refine ⟨?_, ?_, ?_⟩
  · intro fo hmem hfile
    simp only [addFiles, List.mem_append] at hmem
    rcases hmem with h | h
    · exact h
    · exfalso
      have hfk : fo.file ∈ acceptedOfBatch cfg s batch := (mem_mkFileObjs h).1
      have hmemf : fo.file ∈ batch.filter (fun g => (validateFile cfg g).1) :=
        acceptedOfBatch_subset_filter cfg s batch hfk
      rw [hfile] at hmemf
      have := (List.mem_filter.mp hmemf).2
      rw [hval] at this
      cases this
  · rw [hev]; exact showError_ne_nil cfg m
  · intro e he
    have hmem : e ∈ (batch.map (fun g => (validateFile cfg g).2)).flatten :=
      List.mem_flatten_of_mem (List.mem_map_of_mem (fun g => (validateFile cfg g).2) hf) he
    simp only [addFiles]
    exact List.mem_append_left _ (List.mem_append_left _ hmem)

/-- Witness for C4: a file that is both of the wrong type and oversized,
in a batch together with a valid file. -/
theorem invalidFile_never_added_witness :
    (∀ fo ∈ (addFiles cfgW stateW [fileB, badFile]).1.files,
        fo.file = badFile → fo ∈ stateW.files) ∧
    (validateFile cfgW badFile).2 ≠ [] ∧
    (∀ e ∈ (validateFile cfgW badFile).2, e ∈ (addFiles cfgW stateW [fileB, badFile]).2) :=
  invalidFile_never_added cfgW stateW [fileB, badFile] badFile (by decide)
    (Or.inl (by decide))

/-- C10: For a file violating both the type whitelist and the size
bound, `validateFile` reports exactly one error — the invalid-type one —
and never the size error: the type check runs first and validation stops
at the first violation. -/
theorem invalidType_error_precedence (cfg : Config) (f : RawFile)
    (htype : f.ftype ∉ cfg.acceptedTypes)
    (_hsize : cfg.maxFileSize < f.size) :
    (validateFile cfg f).1 = false ∧
    (validateFile cfg f).2 = showError cfg (f.name ++ ": Invalid file type") ∧
    (validateFile cfg f).2.length = 1 := by
  have h2 : (validateFile cfg f).2 = showError cfg (f.name ++ ": Invalid file type") := by
    simp [validateFile, htype]
  refine ⟨by simp [validateFile, htype], h2, ?_⟩
  rw [h2]
  unfold showError
  split <;> rfl

/-- Witness for C10 at `badFile` (wrong type and oversized for `cfgW`). -/
theorem invalidType_error_precedence_witness :
    (validateFile cfgW badFile).1 = false ∧
    (validateFile cfgW badFile).2 =
      showError cfgW (badFile.name ++ ": Invalid file type") ∧
    (validateFile cfgW badFile).2.length = 1 :=
  invalidType_error_precedence cfgW badFile (by decide) (by decide)

/-! ### Intake append behaviour -/

theorem string_getLast_of_append (a b : String) (ch : Char)
    (hb : b.data.getLast? = some ch) : (a ++ b).data.getLast? = some ch := by
  rw [String.data_append, List.getLast?_append, hb]
  rfl

theorem capacityMsg_getLast (n : Nat) :
    (capacityMsg n).data.getLast? = some 'd' :=
  string_getLast_of_append ("Maximum " ++ toString n) " files allowed" 'd' (by decide)

/-- A per-file invalid-type message is never the capacity message,
whatever the file name: they end in different characters. -/
theorem typeMsg_ne_capacityMsg (name : String) (n : Nat) :
    name ++ ": Invalid file type" ≠ capacityMsg n := by
  intro h
  have hd : ((name ++ ": Invalid file type" : String)).data.getLast? =
      (capacityMsg n).data.getLast? := by rw [h]
  rw [capacityMsg_getLast n,
    string_getLast_of_append name ": Invalid file type" 'e' (by decide)] at hd
  exact absurd (Option.some.inj hd) (by decide)

/-- A per-file oversize message is never the capacity message, whatever
the file name and size limit: they end in different characters. -/
theorem sizeMsg_ne_capacityMsg (name : String) (n d : Nat) :
    name ++ ": File too large (max " ++ toString d ++ "MB)" ≠ capacityMsg n := by
  intro h
  have hd : ((name ++ ": File too large (max " ++ toString d ++ "MB)" : String)).data.getLast?
      = (capacityMsg n).data.getLast? := by rw [h]
  rw [capacityMsg_getLast n,
    string_getLast_of_append (name ++ ": File too large (max " ++ toString d) "MB)" ')'
      (by decide)] at hd
  exact absurd (Option.some.inj hd) (by decide)

/-- `validateFile` reports nothing, the invalid-type error, or the
oversize error. -/
theorem validateFile_events_cases (cfg : Config) (f : RawFile) :
    (validateFile cfg f).2 = [] ∨
    (validateFile cfg f).2 = showError cfg (f.name ++ ": Invalid file type") ∨
    (validateFile cfg f).2 = showError cfg
      (f.name ++ ": File too large (max " ++
        toString (cfg.maxFileSize / (1024 * 1024)) ++ "MB)") := by
  unfold validateFile
  split
  · exact Or.inr (Or.inl rfl)
  · split
    · exact Or.inr (Or.inr rfl)
    · exact Or.inl rfl

/-- No validation error of the batch is the capacity error. -/
theorem filter_capacity_valEvents (cfg : Config) (batch : List RawFile) :
    ((batch.map (fun f => (validateFile cfg f).2)).flatten).filter
      (Event.isCapacityError cfg.maxFiles) = [] := by
  rw [List.filter_eq_nil_iff]
  intro e he hc
  obtain ⟨l, hl, hel⟩ := List.mem_flatten.mp he
  obtain ⟨f, _, rfl⟩ := List.mem_map.mp hl
  rcases validateFile_events_cases cfg f with h0 | hm | hm
  · rw [h0] at hel; cases hel
  · rw [hm] at hel
    rcases mem_showError hel with rfl | rfl <;>
      · simp only [Event.isCapacityError, beq_iff_eq] at hc
        exact typeMsg_ne_capacityMsg f.name cfg.maxFiles hc
  · rw [hm] at hel
    rcases mem_showError hel with rfl | rfl <;>
      · simp only [Event.isCapacityError, beq_iff_eq] at hc
        exact sizeMsg_ne_capacityMsg f.name cfg.maxFiles
          (cfg.maxFileSize / (1024 * 1024)) hc

/-- The capacity error's own report passes the capacity filter whole. -/
theorem filter_capacity_showError_cap (cfg : Config) (n : Nat) :
    (showError cfg (capacityMsg n)).filter (Event.isCapacityError n) =
      showError cfg (capacityMsg n) := by
  unfold showError
  split <;> simp [Event.isCapacityError]

theorem flatten_validate_events_filter (cfg : Config) (batch : List RawFile) :
    ((batch.map (fun f => (validateFile cfg f).2)).flatten).filter Event.isFilesAdded
      = [] := by
  rw [List.filter_eq_nil_iff]
  intro e he
  obtain ⟨l, hl, hel⟩ := List.mem_flatten.mp he
  obtain ⟨f, _, rfl⟩ := List.mem_map.mp hl
  rcases validateFile_events_shape cfg f with h0 | ⟨m, hm⟩
  · rw [h0] at hel; cases hel
  · rw [hm] at hel
    exact fun hc => by rw [(showError_event_flags hel).1] at hc; cases hc

/-- C3: With the files-added hook configured and the tracked-count
invariant holding, a batch appends exactly its valid files in arrival
order, truncated at the tail to the remaining capacity; a single
files-added notification with exactly the kept raw handles fires if and
only if at least one file was kept; and the capacity error is reported
exactly once for the whole batch if and only if the batch overflows the
remaining capacity. -/
theorem addFiles_appends_accepted (cfg : Config) (s : UploaderState)
    (batch : List RawFile)
    (hlen : s.files.length ≤ cfg.maxFiles) (hhook : cfg.onFilesAdded = true) :
    (addFiles cfg s batch).1.files.map (fun fo => fo.file) =
        s.files.map (fun fo => fo.file) ++
          (batch.filter (fun f => (validateFile cfg f).1)).take
            (cfg.maxFiles - s.files.length) ∧
    (addFiles cfg s batch).2.filter Event.isFilesAdded =
      (if (batch.filter (fun f => (validateFile cfg f).1)).take
            (cfg.maxFiles - s.files.length) = [] then ([] : List Event)
       else [Event.filesAdded ((batch.filter (fun f => (validateFile cfg f).1)).take
            (cfg.maxFiles - s.files.length))]) ∧
    (addFiles cfg s batch).2.filter (Event.isCapacityError cfg.maxFiles) =
      (if cfg.maxFiles < s.files.length +
            (batch.filter (fun f => (validateFile cfg f).1)).length then
         showError cfg (capacityMsg cfg.maxFiles)
       else ([] : List Event)) := by
  have hacc := acceptedOfBatch_eq_take cfg s batch hlen
  refine ⟨?_, ?_, ?_⟩
  · simp only [addFiles, List.map_append, mkFileObjs_map_file, hacc]
  · simp only [addFiles, List.filter_append, flatten_validate_events_filter, hacc, hhook,
      List.nil_append, true_and]
    have hcap : (if cfg.maxFiles < s.files.length +
          (batch.filter (fun f => (validateFile cfg f).1)).length then
          showError cfg ("Maximum " ++ toString cfg.maxFiles ++ " files allowed")
        else ([] : List Event)).filter Event.isFilesAdded = [] := by
      split
      · rw [List.filter_eq_nil_iff]
        intro e he hc
        rw [(showError_event_flags he).1] at hc
        cases hc
      · rfl
    rw [hcap, List.nil_append]
    by_cases hA : (batch.filter (fun f => (validateFile cfg f).1)).take
        (cfg.maxFiles - s.files.length) = []
    · simp [hA]
    · have hpos : 0 < ((batch.filter (fun f => (validateFile cfg f).1)).take
          (cfg.maxFiles - s.files.length)).length :=
        List.length_pos.mpr hA
      rw [List.length_take] at hpos
      have h1 : s.files.length < cfg.maxFiles := by omega
      have h2 : 0 < (batch.filter (fun f => (validateFile cfg f).1)).length := by omega
      simp [hA, h1, h2, Event.isFilesAdded]
  · simp only [addFiles, List.filter_append, filter_capacity_valEvents,
      List.nil_append]
    have hadded : (if cfg.onFilesAdded = true ∧ 0 < (acceptedOfBatch cfg s batch).length
        then [Event.filesAdded (acceptedOfBatch cfg s batch)]
        else ([] : List Event)).filter (Event.isCapacityError cfg.maxFiles) = [] := by
      split <;> rfl
    rw [hadded, List.append_nil]
    by_cases hov : cfg.maxFiles < s.files.length +
        (batch.filter (fun f => (validateFile cfg f).1)).length
    · rw [if_pos hov, if_pos hov]
      exact filter_capacity_showError_cap cfg cfg.maxFiles
    · rw [if_neg hov, if_neg hov]
      rfl

/-- Witness for C3: two valid files and one invalid file into the state
tracking `fileA`, under a maximum of two — the batch overflows, so the
tail (`fileC`) is dropped and the capacity error is reported once. -/
theorem addFiles_appends_accepted_witness :
    (addFiles cfgSmall stateW [fileB, badFile, fileC]).1.files.map (fun fo => fo.file) =
        stateW.files.map (fun fo => fo.file) ++
          (([fileB, badFile, fileC].filter (fun f => (validateFile cfgSmall f).1)).take
            (cfgSmall.maxFiles - stateW.files.length)) ∧
    (addFiles cfgSmall stateW [fileB, badFile, fileC]).2.filter Event.isFilesAdded =
      (if ([fileB, badFile, fileC].filter (fun f => (validateFile cfgSmall f).1)).take
            (cfgSmall.maxFiles - stateW.files.length) = [] then ([] : List Event)
       else [Event.filesAdded (([fileB, badFile, fileC].filter
            (fun f => (validateFile cfgSmall f).1)).take
            (cfgSmall.maxFiles - stateW.files.length))]) ∧
    (addFiles cfgSmall stateW [fileB, badFile, fileC]).2.filter
        (Event.isCapacityError cfgSmall.maxFiles) =
      (if cfgSmall.maxFiles < stateW.files.length +
            ([fileB, badFile, fileC].filter (fun f => (validateFile cfgSmall f).1)).length
       then showError cfgSmall (capacityMsg cfgSmall.maxFiles)
       else ([] : List Event)) :=
  addFiles_appends_accepted cfgSmall stateW [fileB, badFile, fileC] (by decide) (by decide)

/-! ### Removal -/

theorem removeFirstById_eq_none {l : List FileObj} {fid : Nat}
    (h : ∀ fo ∈ l, fo.id ≠ fid) : removeFirstById l fid = none := by
  induction l with
  | nil => rfl
  | cons a as ih =>
    have ha : ¬ a.id = fid := h a (List.mem_cons_self a as)
    unfold removeFirstById
    rw [if_neg ha, ih (fun g hg => h g (List.mem_cons_of_mem _ hg))]

theorem removeFirstById_none_forall {l : List FileObj} {fid : Nat}
    (h : removeFirstById l fid = none) : ∀ fo ∈ l, fo.id ≠ fid := by
  induction l with
  | nil => intro fo hfo; cases hfo
  | cons a as ih =>
    intro fo hfo
    by_cases ha : a.id = fid
    · unfold removeFirstById at h
      rw [if_pos ha] at h
      cases h
    · unfold removeFirstById at h
      rw [if_neg ha] at h
      rcases List.mem_cons.mp hfo with rfl | hfo'
      · exact ha
      · cases hr : removeFirstById as fid with
        | none => exact ih hr fo hfo'
        | some pr =>
          rw [hr] at h
          obtain ⟨r, rest'⟩ := pr
          cases h

theorem removeFirstById_eq_some {l : List FileObj} {fid : Nat} {fo : FileObj}
    {rest : List FileObj} (h : removeFirstById l fid = some (fo, rest)) :
    ∃ l1 l2, l = l1 ++ fo :: l2 ∧ rest = l1 ++ l2 ∧ fo.id = fid ∧
      ∀ g ∈ l1, g.id ≠ fid := by
  induction l generalizing fo rest with
  | nil => cases h
  | cons a as ih =>
    by_cases ha : a.id = fid
    · unfold removeFirstById at h
      rw [if_pos ha] at h
      injection h with h'
      obtain ⟨h1, h2⟩ := Prod.mk.inj h'
      subst h1; subst h2
      exact ⟨[], as, rfl, rfl, ha, by intro g hg; cases hg⟩
    · unfold removeFirstById at h
      rw [if_neg ha] at h
      cases hr : removeFirstById as fid with
      | none => rw [hr] at h; cases h
      | some pr =>
        obtain ⟨r, rest'⟩ := pr
        rw [hr] at h
        injection h with h'
        obtain ⟨h1, h2⟩ := Prod.mk.inj h'
        subst h1; subst h2
        obtain ⟨l1, l2, e1, e2, e3, e4⟩ := ih hr
        refine ⟨a :: l1, l2, by rw [List.cons_append, ← e1], by rw [List.cons_append, ← e2],
          e3, ?_⟩
        intro g hg
        rcases List.mem_cons.mp hg with rfl | hg'
        · exact ha
        · exact e4 g hg'

/-- C6: With the removal hook configured, `removeFile` on a present
identifier removes exactly the first matching entry (the remaining
entries keep their order), so the count drops by one, and fires exactly
one removal notification with that entry's raw handle; on an absent
identifier it is a silent no-op. -/
theorem removeFile_correct (cfg : Config) (s : UploaderState) (fid : Nat)
    (hhook : cfg.onFileRemoved = true) :
    ((∃ fo ∈ s.files, fo.id = fid) →
       ∃ l1 fo l2, s.files = l1 ++ fo :: l2 ∧ fo.id = fid ∧ (∀ g ∈ l1, g.id ≠ fid) ∧
         removeFile cfg s fid =
           ({ files := l1 ++ l2, uploading := s.uploading, nextId := s.nextId },
            [Event.fileRemoved fo.file]) ∧
         (removeFile cfg s fid).1.files.length + 1 = s.files.length) ∧
    ((∀ fo ∈ s.files, fo.id ≠ fid) → removeFile cfg s fid = (s, [])) := by
  constructor
  · intro hex
    cases hrm : removeFirstById s.files fid with
    | none =>
      obtain ⟨fo, hfo, hid⟩ := hex
      exact absurd hid (removeFirstById_none_forall hrm fo hfo)
    | some pr =>
      obtain ⟨fo, rest⟩ := pr
      obtain ⟨l1, l2, e1, e2, e3, e4⟩ := removeFirstById_eq_some hrm
      have hrf : removeFile cfg s fid =
          ({ files := rest, uploading := s.uploading, nextId := s.nextId },
           [Event.fileRemoved fo.file]) := by
        simp [removeFile, hrm, hhook]
      refine ⟨l1, fo, l2, e1, e3, e4, by rw [hrf, e2], ?_⟩
      rw [hrf, e2, e1]
      simp
      omega
  · intro hall
    simp [removeFile, removeFirstById_eq_none hall]

/-- Witness for C6: removing the only tracked entry of `stateW` by its
id, and removing an absent id. -/
theorem removeFile_correct_witness :
    ((∃ fo ∈ stateW.files, fo.id = 0) →
       ∃ l1 fo l2, stateW.files = l1 ++ fo :: l2 ∧ fo.id = 0 ∧ (∀ g ∈ l1, g.id ≠ 0) ∧
         removeFile cfgW stateW 0 =
           ({ files := l1 ++ l2, uploading := stateW.uploading, nextId := stateW.nextId },
            [Event.fileRemoved fo.file]) ∧
         (removeFile cfgW stateW 0).1.files.length + 1 = stateW.files.length) ∧
    ((∀ fo ∈ stateW.files, fo.id ≠ 0) → removeFile cfgW stateW 0 = (stateW, [])) :=
  removeFile_correct cfgW stateW 0 (by decide)

/-! ### Upload-loop lemmas -/

theorem applyProgressCalls_fields (cfg : Config) (fo : FileObj) (calls : List Int) :
    (applyProgressCalls cfg fo calls).1.file = fo.file ∧
    (applyProgressCalls cfg fo calls).1.id = fo.id ∧
    (applyProgressCalls cfg fo calls).1.uploaded = fo.uploaded := by
  induction calls generalizing fo with
  | nil => exact ⟨rfl, rfl, rfl⟩
  | cons p rest ih =>
    simpa [applyProgressCalls, progressCallback] using ih { fo with progress := p }

theorem applyProgressCalls_events (cfg : Config) (fo : FileObj) (calls : List Int) :
    (applyProgressCalls cfg fo calls).2 =
      if cfg.onUploadProgress then calls.map (Event.uploadProgress fo.file) else [] := by
  induction calls generalizing fo with
  | nil => split <;> rfl
  | cons p rest ih =>
    simp only [applyProgressCalls, progressCallback, ih]
    by_cases h : cfg.onUploadProgress <;> simp [h]

theorem applyProgressCalls_progress (cfg : Config) (fo : FileObj) (calls : List Int) :
    (applyProgressCalls cfg fo calls).1.progress = fo.progress ∨
    (applyProgressCalls cfg fo calls).1.progress ∈ calls := by
  induction calls generalizing fo with
  | nil => exact Or.inl rfl
  | cons p rest ih =>
    rcases ih { fo with progress := p } with h | h
    · exact Or.inr (by simp [applyProgressCalls, progressCallback, h])
    · exact Or.inr (by simp [applyProgressCalls, progressCallback]; exact Or.inr h)

theorem uploadFile_file (cfg : Config) (beh : UploadBehavior) (fo : FileObj) :
    (uploadFile cfg beh fo).1.file = fo.file := by
  unfold uploadFile
  rcases h : (beh fo.file).2 with _ | msg <;>
    simp [h, (applyProgressCalls_fields cfg fo (beh fo.file).1).1]

theorem uploadFile_events (cfg : Config) (beh : UploadBehavior) (fo : FileObj) :
    (uploadFile cfg beh fo).2.1 =
      Event.uploadCall fo.file ::
        (if cfg.onUploadProgress then
           (beh fo.file).1.map (Event.uploadProgress fo.file)
         else []) := by
  unfold uploadFile
  rcases h : (beh fo.file).2 with _ | msg <;>
    simp [h, applyProgressCalls_events cfg fo (beh fo.file).1]

theorem uploadFile_outcome (cfg : Config) (beh : UploadBehavior) (fo : FileObj) :
    (uploadFile cfg beh fo).2.2 = (beh fo.file).2 := by
  unfold uploadFile
  rcases h : (beh fo.file).2 with _ | msg <;> simp [h]

theorem uploadFile_uploaded_of_success (cfg : Config) (beh : UploadBehavior)
    (fo : FileObj) (h : (beh fo.file).2 = none) :
    (uploadFile cfg beh fo).1.uploaded = true := by
  unfold uploadFile
  simp [h]

theorem uploadFile_uploaded_of_failure (cfg : Config) (beh : UploadBehavior)
    (fo : FileObj) (msg : String) (h : (beh fo.file).2 = some msg) :
    (uploadFile cfg beh fo).1.uploaded = fo.uploaded := by
  unfold uploadFile
  simp [h, (applyProgressCalls_fields cfg fo (beh fo.file).1).2.2]

theorem uploadFile_progress (cfg : Config) (beh : UploadBehavior) (fo : FileObj) :
    (uploadFile cfg beh fo).1.progress = fo.progress ∨
    (uploadFile cfg beh fo).1.progress ∈ (beh fo.file).1 := by
  have := applyProgressCalls_progress cfg fo (beh fo.file).1
  unfold uploadFile
  rcases h : (beh fo.file).2 with _ | msg <;> simpa [h] using this

theorem uploadFile_filter_uploadCall (cfg : Config) (beh : UploadBehavior)
    (fo : FileObj) :
    ((uploadFile cfg beh fo).2.1).filter Event.isUploadCall =
      [Event.uploadCall fo.file] := by
  rw [uploadFile_events]
  simp only [List.filter_cons]
  have h1 : Event.isUploadCall (Event.uploadCall fo.file) = true := rfl
  rw [if_pos h1]
  congr 1
  rw [List.filter_eq_nil_iff]
  intro e he
  split at he
  · obtain ⟨p, _, rfl⟩ := List.mem_map.mp he
    exact fun hc => by cases hc
  · cases he

theorem uploadFile_events_no_complete (cfg : Config) (beh : UploadBehavior)
    (fo : FileObj) :
    ∀ e ∈ (uploadFile cfg beh fo).2.1, e.isUploadComplete = false := by
  rw [uploadFile_events]
  intro e he
  rcases List.mem_cons.mp he with rfl | he'
  · rfl
  · split at he'
    · obtain ⟨p, _, rfl⟩ := List.mem_map.mp he'
      rfl
    · cases he'

/-- The loop over a stretch of entries whose pending uploads all
succeed, followed by anything: it processes the stretch entirely and
continues. -/
theorem runUploadLoop_append_success (cfg : Config) (beh : UploadBehavior)
    (l1 r : List FileObj)
    (h : ∀ fo ∈ l1, fo.uploaded = false → (beh fo.file).2 = none) :
    runUploadLoop cfg beh (l1 ++ r) =
      (l1.map (succUpd cfg beh) ++ (runUploadLoop cfg beh r).1,
       succEvs cfg beh l1 ++ (runUploadLoop cfg beh r).2.1,
       (runUploadLoop cfg beh r).2.2) := by
  induction l1 with
  | nil => simp [succEvs]
  | cons fo rest ih =>
    have hrest : ∀ g ∈ rest, g.uploaded = false → (beh g.file).2 = none :=
      fun g hg => h g (List.mem_cons_of_mem _ hg)
    by_cases hup : fo.uploaded
    · simp only [List.cons_append, runUploadLoop, hup, if_pos, ih hrest]
      simp [succUpd, succEvs, hup, ih hrest]
    · have hnone : (beh fo.file).2 = none := by
        have hfo : fo.uploaded = false := by
          cases hh : fo.uploaded
          · rfl
          · exact absurd hh hup
        exact h fo (List.mem_cons_self fo rest) hfo
      have hout : (uploadFile cfg beh fo).2.2 = none := by
        rw [uploadFile_outcome, hnone]
      simp only [List.cons_append, runUploadLoop, hup, if_neg, not_false_iff, hout,
        ih hrest]
      simp [succUpd, succEvs, hup, ih hrest, List.append_assoc]

/-- The loop over entries whose pending uploads all succeed. -/
theorem runUploadLoop_success (cfg : Config) (beh : UploadBehavior)
    (l : List FileObj)
    (h : ∀ fo ∈ l, fo.uploaded = false → (beh fo.file).2 = none) :
    runUploadLoop cfg beh l =
      (l.map (succUpd cfg beh), succEvs cfg beh l, none) := by
  have := runUploadLoop_append_success cfg beh l [] h
  simpa [runUploadLoop] using this

theorem succUpd_file (cfg : Config) (beh : UploadBehavior) (fo : FileObj) :
    (succUpd cfg beh fo).file = fo.file := by
  unfold succUpd
  split
  · rfl
  · exact uploadFile_file cfg beh fo

theorem succUpd_map_file (cfg : Config) (beh : UploadBehavior) (l : List FileObj) :
    (l.map (succUpd cfg beh)).map (fun fo => fo.file) = l.map (fun fo => fo.file) := by
  rw [List.map_map]
  exact List.map_congr_left (fun fo _ => succUpd_file cfg beh fo)

theorem succEvs_no_complete (cfg : Config) (beh : UploadBehavior) (l : List FileObj) :
    ∀ e ∈ succEvs cfg beh l, e.isUploadComplete = false := by
  induction l with
  | nil => intro e he; cases he
  | cons fo rest ih =>
    intro e he
    rcases List.mem_append.mp he with h | h
    · split at h
      · cases h
      · exact uploadFile_events_no_complete cfg beh fo e h
    · exact ih e h

/-- C5: When `startUpload` actually runs (hook configured, idle) and the
upload function resolves for every entry it is invoked on, the
upload-complete notification fires exactly once, with the raw handles of
all tracked entries. -/
theorem startUpload_complete_once (cfg : Config) (beh : UploadBehavior)
    (s : UploaderState)
    (hup : cfg.onUpload = true) (hidle : s.uploading = false)
    (hcomp : cfg.onUploadComplete = true)
    (hsucc : ∀ fo ∈ s.files, fo.uploaded = false → (beh fo.file).2 = none) :
    (startUpload cfg beh s).2.filter Event.isUploadComplete =
      [Event.uploadComplete (s.files.map (fun fo => fo.file))] := by
  have hguard : ¬ (cfg.onUpload = false ∨ s.uploading = true) := by
    rw [hup, hidle]; simp
  rw [startUpload, if_neg hguard]
  simp only [runUploadLoop_success cfg beh s.files hsucc, hcomp, if_pos,
    List.filter_append]
  rw [List.filter_eq_nil_iff.mpr
    (fun e he hc => by rw [succEvs_no_complete cfg beh s.files e he] at hc; cases hc)]
  rw [succUpd_map_file]
  rfl

/-- Witness for C5: all three uploads of `stateABC` succeed under
`behGood`. -/
theorem startUpload_complete_once_witness :
    (startUpload cfgW behGood stateABC).2.filter Event.isUploadComplete =
      [Event.uploadComplete (stateABC.files.map (fun fo => fo.file))] :=
  startUpload_complete_once cfgW behGood stateABC (by decide) (by decide) (by decide)
    (fun fo _ _ => rfl)

/-! ### Failure halting and retry -/

theorem showError_filter_uploadCall (cfg : Config) (m : String) :
    (showError cfg m).filter Event.isUploadCall = [] := by
  rw [List.filter_eq_nil_iff]
  intro e he hc
  rw [(showError_event_flags he).2.1] at hc
  cases hc

theorem succEvs_filter_uploadCall (cfg : Config) (beh : UploadBehavior)
    (l : List FileObj) :
    (succEvs cfg beh l).filter Event.isUploadCall =
      (l.filter (fun fo => !fo.uploaded)).map (fun fo => Event.uploadCall fo.file) := by
  induction l with
  | nil => rfl
  | cons fo rest ih =>
    by_cases hup : fo.uploaded <;>
      simp [succEvs, List.filter_append, List.filter_cons, hup, ih,
        uploadFile_filter_uploadCall]

theorem succUpd_uploaded_of_success (cfg : Config) (beh : UploadBehavior)
    (fo : FileObj) (h : fo.uploaded = false → (beh fo.file).2 = none) :
    (succUpd cfg beh fo).uploaded = true := by
  unfold succUpd
  by_cases hup : fo.uploaded
  · rw [if_pos hup]; exact hup
  · have hfo : fo.uploaded = false := by
      cases hh : fo.uploaded
      · rfl
      · exact absurd hh hup
    rw [if_neg hup]
    exact uploadFile_uploaded_of_success cfg beh fo (h hfo)

/-- The loop only ever invokes the upload function on not-yet-uploaded
entries, in tracked order: its upload-call trace is an initial segment
of the pending entries' calls. -/
theorem runUploadLoop_calls_take (cfg : Config) (beh : UploadBehavior)
    (l : List FileObj) :
    ∃ k, ((runUploadLoop cfg beh l).2.1).filter Event.isUploadCall =
      ((l.filter (fun fo => !fo.uploaded)).map
        (fun fo => Event.uploadCall fo.file)).take k := by
  induction l with
  | nil => exact ⟨0, rfl⟩
  | cons fo rest ih =>
    by_cases hup : fo.uploaded
    · obtain ⟨k, hk⟩ := ih
      exact ⟨k, by simp [runUploadLoop, List.filter_cons, hup, hk]⟩
    · cases hout : (uploadFile cfg beh fo).2.2 with
      | some msg =>
        refine ⟨1, ?_⟩
        simp [runUploadLoop, List.filter_cons, hup, hout, uploadFile_filter_uploadCall]
      | none =>
        obtain ⟨k, hk⟩ := ih
        refine ⟨k + 1, ?_⟩
        simp [runUploadLoop, List.filter_cons, List.filter_append, hup, hout,
          uploadFile_filter_uploadCall, hk]

/-- `startUpload`, whenever it actually runs, invokes the upload
function only on entries not yet marked uploaded, in tracked order. -/
theorem startUpload_calls_take (cfg : Config) (beh : UploadBehavior)
    (s : UploaderState) (hup : cfg.onUpload = true) (hidle : s.uploading = false) :
    ∃ k, ((startUpload cfg beh s).2).filter Event.isUploadCall =
      ((s.files.filter (fun fo => !fo.uploaded)).map
        (fun fo => Event.uploadCall fo.file)).take k := by
  have hguard : ¬ (cfg.onUpload = false ∨ s.uploading = true) := by
    rw [hup, hidle]; simp
  obtain ⟨k, hk⟩ := runUploadLoop_calls_take cfg beh s.files
  refine ⟨k, ?_⟩
  unfold startUpload
  rw [if_neg hguard]
  cases hout : (runUploadLoop cfg beh s.files).2.2 with
  | none =>
    have hcomp : (if cfg.onUploadComplete then
        [Event.uploadComplete ((runUploadLoop cfg beh s.files).1.map
          (fun fo => fo.file))] else []).filter Event.isUploadCall = [] := by
      split <;> rfl
    simp only [hout, List.filter_append, hcomp, hk, List.append_nil]
  | some msg =>
    simp only [hout, List.filter_append, showError_filter_uploadCall, hk,
      List.append_nil]

/-- C1: When `startUpload` runs over `l1 ++ b :: l2` where the pending
entries of `l1` succeed and `b`'s upload rejects: the upload function is
invoked exactly on the pending entries of `l1` and then `b` (never on
`l2`), the failure is reported through the error hook, the widget is
idle again, every entry of `l1` ends (and in particular stays) marked
uploaded while `b` and `l2` stay not uploaded/untouched, and any later
`startUpload` invokes the upload function only on the entries still
pending, in tracked order. -/
theorem startUpload_failure_halts (cfg : Config) (beh : UploadBehavior)
    (s : UploaderState) (l1 : List FileObj) (b : FileObj) (l2 : List FileObj)
    (msg : String)
    (hup : cfg.onUpload = true) (hidle : s.uploading = false)
    (herr : cfg.onError = true)
    (hsplit : s.files = l1 ++ b :: l2)
    (h1 : ∀ fo ∈ l1, fo.uploaded = false → (beh fo.file).2 = none)
    (hb : b.uploaded = false) (hfail : (beh b.file).2 = some msg) :
    ((startUpload cfg beh s).2.filter Event.isUploadCall =
        (l1.filter (fun fo => !fo.uploaded)).map (fun fo => Event.uploadCall fo.file)
          ++ [Event.uploadCall b.file]) ∧
    Event.errorHook ("Upload failed: " ++ msg) ∈ (startUpload cfg beh s).2 ∧
    (startUpload cfg beh s).1.uploading = false ∧
    (∃ b', (startUpload cfg beh s).1.files =
          l1.map (succUpd cfg beh) ++ b' :: l2 ∧
        b'.file = b.file ∧ b'.uploaded = false ∧
        (∀ fo ∈ l1.map (succUpd cfg beh), fo.uploaded = true) ∧
        (l1.map (succUpd cfg beh)).map (fun fo => fo.file) =
          l1.map (fun fo => fo.file)) ∧
    (∀ beh2, ∃ k,
      (startUpload cfg beh2 (startUpload cfg beh s).1).2.filter Event.isUploadCall =
        (((startUpload cfg beh s).1.files.filter (fun fo => !fo.uploaded)).map
          (fun fo => Event.uploadCall fo.file)).take k) := by
  have hguard : ¬ (cfg.onUpload = false ∨ s.uploading = true) := by
    rw [hup, hidle]; simp
  have hout : (uploadFile cfg beh b).2.2 = some msg := by
    rw [uploadFile_outcome, hfail]
  have hloopb : runUploadLoop cfg beh (b :: l2) =
      ((uploadFile cfg beh b).1 :: l2, (uploadFile cfg beh b).2.1, some msg) := by
    simp [runUploadLoop, hb, hout]
  have hloop := runUploadLoop_append_success cfg beh l1 (b :: l2) h1
  rw [hloopb] at hloop
  have hstart : startUpload cfg beh s =
      ({ files := l1.map (succUpd cfg beh) ++ (uploadFile cfg beh b).1 :: l2,
         uploading := false, nextId := s.nextId },
       (succEvs cfg beh l1 ++ (uploadFile cfg beh b).2.1) ++
         showError cfg ("Upload failed: " ++ msg)) := by
    unfold startUpload
    rw [if_neg hguard, hsplit, hloop]
  refine ⟨?_, ?_, ?_, ?_, ?_⟩
  · rw [hstart]
    simp [List.filter_append, succEvs_filter_uploadCall,
      uploadFile_filter_uploadCall, showError_filter_uploadCall]
  · rw [hstart]
    exact List.mem_append_right _ (by simp [showError, herr])
  · rw [hstart]
  · refine ⟨(uploadFile cfg beh b).1, by rw [hstart], uploadFile_file cfg beh b, ?_, ?_,
      succUpd_map_file cfg beh l1⟩
    · rw [uploadFile_uploaded_of_failure cfg beh b msg hfail, hb]
    · intro fo hfo
      obtain ⟨g, hg, rfl⟩ := List.mem_map.mp hfo
      exact succUpd_uploaded_of_success cfg beh g (h1 g hg)
  · intro beh2
    exact startUpload_calls_take cfg beh2 _ hup (by rw [hstart])

/-- Witness for C1: three pending files where `behFail` rejects exactly
on `fileB`. -/
theorem startUpload_failure_halts_witness :
    ((startUpload cfgW behFail stateABC).2.filter Event.isUploadCall =
        ([objA].filter (fun fo => !fo.uploaded)).map (fun fo => Event.uploadCall fo.file)
          ++ [Event.uploadCall objB.file]) ∧
    Event.errorHook ("Upload failed: " ++ "boom") ∈ (startUpload cfgW behFail stateABC).2 ∧
    (startUpload cfgW behFail stateABC).1.uploading = false ∧
    (∃ b', (startUpload cfgW behFail stateABC).1.files =
          [objA].map (succUpd cfgW behFail) ++ b' :: [objC] ∧
        b'.file = objB.file ∧ b'.uploaded = false ∧
        (∀ fo ∈ [objA].map (succUpd cfgW behFail), fo.uploaded = true) ∧
        ([objA].map (succUpd cfgW behFail)).map (fun fo => fo.file) =
          [objA].map (fun fo => fo.file)) ∧
    (∀ beh2, ∃ k,
      (startUpload cfgW beh2 (startUpload cfgW behFail stateABC).1).2.filter
          Event.isUploadCall =
        (((startUpload cfgW behFail stateABC).1.files.filter
            (fun fo => !fo.uploaded)).map
          (fun fo => Event.uploadCall fo.file)).take k) :=
  startUpload_failure_halts cfgW behFail stateABC [objA] objB [objC] "boom"
    (by decide) (by decide) (by decide) (by decide)
    (by intro fo hfo hp; fin_cases hfo; decide) (by decide) (by decide)

/-! ### Progress values -/

theorem runUploadLoop_progress_range (cfg : Config) (beh : UploadBehavior)
    (l : List FileObj)
    (hbeh : ∀ f p, p ∈ (beh f).1 → 0 ≤ p ∧ p ≤ 100)
    (hl : ∀ fo ∈ l, 0 ≤ fo.progress ∧ fo.progress ≤ 100) :
    ∀ fo ∈ (runUploadLoop cfg beh l).1, 0 ≤ fo.progress ∧ fo.progress ≤ 100 := by
  induction l with
  | nil => intro fo hfo; cases hfo
  | cons a rest ih =>
    have ha := hl a (List.mem_cons_self a rest)
    have hrest : ∀ g ∈ rest, 0 ≤ g.progress ∧ g.progress ≤ 100 :=
      fun g hg => hl g (List.mem_cons_of_mem _ hg)
    have hu : 0 ≤ (uploadFile cfg beh a).1.progress ∧
        (uploadFile cfg beh a).1.progress ≤ 100 := by
      rcases uploadFile_progress cfg beh a with h | h
      · rw [h]; exact ha
      · exact hbeh a.file _ h
    intro fo hfo
    by_cases hup : a.uploaded
    · simp only [runUploadLoop, hup, if_pos, List.mem_cons] at hfo
      rcases hfo with rfl | h
      · exact ha
      · exact ih hrest fo h
    · cases hout : (uploadFile cfg beh a).2.2 with
      | some msg =>
        simp only [runUploadLoop, hup, if_neg, not_false_iff, hout] at hfo
        cases hfo with
        | head => exact hu
        | tail _ h => exact hrest fo h
      | none =>
        simp only [runUploadLoop, hup, if_neg, not_false_iff, hout] at hfo
        cases hfo with
        | head => exact hu
        | tail _ h => exact ih hrest fo h

/-- C9 (amended): the progress callback stores into the entry exactly
the value the upload function passed and, when the progress hook is
configured, forwards the entry's raw handle and that exact value to it;
and stored progress values stay within 0–100 across `startUpload`
provided every value the upload function reports is within 0–100 (the
code never clamps, so the bound is conditional on the reported values —
see the counterexample). -/
theorem progressCallback_exact_and_range :
    (∀ (cfg : Config) (fo : FileObj) (p : Int),
        (progressCallback cfg fo p).1.progress = p ∧
        (cfg.onUploadProgress = true →
          (progressCallback cfg fo p).2 = [Event.uploadProgress fo.file p])) ∧
    (∀ (cfg : Config) (beh : UploadBehavior) (s : UploaderState),
        (∀ f p, p ∈ (beh f).1 → 0 ≤ p ∧ p ≤ 100) →
        (∀ fo ∈ s.files, 0 ≤ fo.progress ∧ fo.progress ≤ 100) →
        ∀ fo ∈ (startUpload cfg beh s).1.files,
          0 ≤ fo.progress ∧ fo.progress ≤ 100) := by
  constructor
  · intro cfg fo p
    exact ⟨rfl, fun h => by simp [progressCallback, h]⟩
  · intro cfg beh s hbeh hs fo hfo
    by_cases hguard : cfg.onUpload = false ∨ s.uploading = true
    · unfold startUpload at hfo
      rw [if_pos hguard] at hfo
      exact hs fo hfo
    · unfold startUpload at hfo
      rw [if_neg hguard] at hfo
      cases hout : (runUploadLoop cfg beh s.files).2.2 with
      | none =>
        simp only [hout] at hfo
        exact runUploadLoop_progress_range cfg beh s.files hbeh hs fo hfo
      | some msg =>
        simp only [hout] at hfo
        exact runUploadLoop_progress_range cfg beh s.files hbeh hs fo hfo

/-- Witness for the amended C9: an exact store at 42, and the 0–100
bound across a run whose reported values are within range. -/
theorem progressCallback_exact_and_range_witness :
    (progressCallback cfgW objA 42).1.progress = 42 ∧
    (∀ fo ∈ (startUpload cfgW behGood stateW).1.files,
        0 ≤ fo.progress ∧ fo.progress ≤ 100) :=
  ⟨(progressCallback_exact_and_range.1 cfgW objA 42).1,
   progressCallback_exact_and_range.2 cfgW behGood stateW
     (fun f p hp => by
       simp only [behGood] at hp
       rcases List.mem_singleton.mp hp with rfl
       exact ⟨by omega, by omega⟩)
     (by decide)⟩

/-- Counterexample to C9 as stated: the code stores the reported value
without clamping, so a reported 150 leaves a tracked entry whose stored
progress is outside 0–100. -/
theorem storedProgress_out_of_range :
    ∃ fo ∈ (startUpload cfgW behOver stateW).1.files,
      ¬(0 ≤ fo.progress ∧ fo.progress ≤ 100) := by
  decide

end ImageUploader
